import Mathlib

/-!
Verification development for the `hs` repository (`scraper.py`): a single-file
scraper that parses item rows out of Hacker News front-page markup
(`parse_posts`), and persists the extracted records into a `posts` table via an
upsert keyed on `id` (`upsert_posts`), orchestrated by `main`.

The embedding models:
* Python `int(...)` on attribute strings (`pyIntChars` / `parsePyInt`);
* the document as the ordered sibling sequence of table rows, exposing exactly
  the node capabilities the code uses (id attribute, title anchors, `td.subtext`
  contents, forward-sibling search);
* the `posts` table as a list of stored rows, with the SQL
  `INSERT ... ON CONFLICT(id) DO UPDATE` merge written out (`upsertOne`),
  `COALESCE(excluded.time_posted, posts.time_posted)` included;
* the `with conn:` transaction as commit-on-success / rollback-on-error
  (`runTransaction`), with an explicit failure-injection point;
* `main`'s try/except structure as `mainRun`, tracking whether the
  `conn.close()` statement was reached.
-/

namespace HS

/-! ### Python `int()` on strings -/

/-- Decimal value of a digit list, most significant first (`int` of the joined
digit characters). -/
def digitsToNat (ds : List Char) : Nat :=
  ds.foldl (fun a c => 10 * a + (c.toNat - 48)) 0

/-- Strip leading and trailing whitespace from a character list, as Python
`int()` does before parsing. -/
def trimChars (cs : List Char) : List Char :=
  ((cs.dropWhile Char.isWhitespace).reverse.dropWhile Char.isWhitespace).reverse

/-- Parse a nonempty all-digit character list; `none` models a `ValueError`. -/
def pyDigits (ds : List Char) : Option Nat :=
  if ds ≠ [] ∧ ds.all Char.isDigit then some (digitsToNat ds) else none

/-- Python `int(s)` on a character list: optional surrounding whitespace, an
optional sign, then decimal digits; `none` models a `ValueError`. -/
def pyIntChars (cs : List Char) : Option Int :=
  match trimChars cs with
  | [] => none
  | c :: ds =>
    if c = '-' then
      match pyDigits ds with
      | some n => some (-(n : Int))
      | none => none
    else if c = '+' then
      match pyDigits ds with
      | some n => some ((n : Int))
      | none => none
    else
      match pyDigits (c :: ds) with
      | some n => some ((n : Int))
      | none => none

/-- Python `int(s)` on a string. -/
def parsePyInt (s : String) : Option Int :=
  pyIntChars s.toList

/-- Python `str.strip()` / BeautifulSoup `get_text(strip=True)`: the text with
surrounding whitespace removed. -/
def pyStrip (s : String) : String :=
  String.mk (trimChars s.toList)

/-! ### Document model

`parse_posts` touches the page only through: `soup.select("tr.athing")`,
`row.get("id")`, `row.select_one("span.titleline a")`,
`row.select_one("a.storylink")`, `row.find_next_sibling()` / `sib.name`,
`sib.select_one("td.subtext")`, and inside the subtext `a.hnuser`,
`span.score`, `span.age` with its `title` attribute.  The document is modelled
as the ordered sibling sequence of the table's child nodes. -/

/-- A title anchor: its display text and optional `href` attribute. -/
structure Anchor where
  text : String
  href : Option String
deriving DecidableEq, Repr

/-- The `span.age` element; `titleAttr` is its optional `title` attribute. -/
structure AgeEl where
  titleAttr : Option String
deriving DecidableEq, Repr

/-- Contents of a `td.subtext` cell: the optional `a.hnuser` text, the optional
`span.score` text, and the optional `span.age` element. -/
structure Subtext where
  hnuser : Option String
  score : Option String
  age : Option AgeEl
deriving DecidableEq, Repr

/-- A `tr` element: whether it carries class `athing`, its optional `id`
attribute, its optional title anchors (new and legacy markup shapes), and the
optional `td.subtext` it contains. -/
structure TrNode where
  isAthing : Bool
  idAttr : Option String
  titlelineAnchor : Option Anchor
  storylinkAnchor : Option Anchor
  subtext : Option Subtext
deriving DecidableEq, Repr

/-- A sibling node in the table: a `tr`, or any other node (skipped by the
`find_next_sibling` loop, which tests `sib.name == "tr"`). -/
inductive SibNode where
  | tr (t : TrNode)
  | other
deriving DecidableEq, Repr

/-! ### `parse_posts` -/

/-- Lines 74-78: read the `id` attribute and `int()` it; a missing attribute or
a `ValueError` leaves `post_id = None`. -/
def rowPostId (t : TrNode) : Option Int :=
  match t.idAttr with
  | none => none
  | some s => parsePyInt s

/-- Line 81: `row.select_one("span.titleline a") or row.select_one("a.storylink")`. -/
def rowAnchor (t : TrNode) : Option Anchor :=
  match t.titlelineAnchor with
  | some a => some a
  | none => t.storylinkAnchor

/-- Line 82: `anchor.get_text(strip=True) if anchor else ""`. -/
def rowTitle (t : TrNode) : String :=
  match rowAnchor t with
  | some a => pyStrip a.text
  | none => ""

/-- Lines 83-85: the raw `href` (empty when the anchor or attribute is
missing), rewritten to an absolute URL when it starts with `item?id=`. -/
def rowUrl (t : TrNode) : String :=
  let url0 :=
    match rowAnchor t with
    | some a => match a.href with | some h => h | none => ""
    | none => ""
  if url0.startsWith "item?id=" then "https://news.ycombinator.com/" ++ url0
  else url0

/-- Lines 88-94: walk forward siblings until the first `tr`; take the
`td.subtext` inside it (possibly absent) and stop. -/
def findSubtext : List SibNode → Option Subtext
  | [] => none
  | .other :: rest => findSubtext rest
  | .tr t :: _ => t.subtext

/-- Lines 100-101: trimmed `a.hnuser` text, `None` when the element or the
whole subtext cell is absent. -/
def subtextUser : Option Subtext → Option String
  | none => none
  | some st =>
    match st.hnuser with
    | some s => some (pyStrip s)
    | none => none

/-- Lines 104-107: keep the digit characters of the `span.score` text and
`int()` them; `0` when there are none or the element is absent.  `int` cannot
fail on a nonempty all-digit string, so the `getD 0` default is unreachable. -/
def pointsOfScoreText (txt : String) : Int :=
  let digits := txt.toList.filter Char.isDigit
  if digits.isEmpty then 0 else (pyIntChars digits).getD 0

/-- Points of an optional subtext cell (lines 97, 103-107). -/
def subtextPoints : Option Subtext → Int
  | none => 0
  | some st =>
    match st.score with
    | none => 0
    | some txt => pointsOfScoreText txt

/-- Lines 109-111: the `title` attribute of `span.age`, `None` when the element
or the subtext cell is absent. -/
def subtextTime : Option Subtext → Option String
  | none => none
  | some st =>
    match st.age with
    | none => none
    | some a => a.titleAttr

/-- An extracted post record, as appended on lines 116-125. -/
structure PostRec where
  id : Int
  title : String
  url : String
  user : Option String
  points : Int
  time_posted : Option String
deriving DecidableEq, Repr

/-- Process one `tr.athing` row given its forward siblings: lines 74-125,
including the line 113 guard discarding rows without a positive integer id or
with an empty title. -/
def parseRow (t : TrNode) (rest : List SibNode) : Option PostRec :=
  match rowPostId t with
  | none => none
  | some i =>
    if i ≤ 0 ∨ rowTitle t = "" then none
    else
      some { id := i, title := rowTitle t, url := rowUrl t,
             user := subtextUser (findSubtext rest),
             points := subtextPoints (findSubtext rest),
             time_posted := subtextTime (findSubtext rest) }

/-- `parse_posts` over the document's row sequence: each `tr.athing` is
processed with the siblings after it in scope for the subtext search. -/
def parse_posts : List SibNode → List PostRec
  | [] => []
  | .other :: rest => parse_posts rest
  | .tr t :: rest =>
    if t.isAthing then
      match parseRow t rest with
      | some p => p :: parse_posts rest
      | none => parse_posts rest
    else parse_posts rest

/-! ### The `posts` table and `upsert_posts` -/

/-- A stored row of the `posts` table (schema in `ensure_db`, lines 38-46). -/
structure StoredRow where
  id : Int
  title : String
  url : String
  user : Option String
  points : Int
  time_posted : Option String
  scraped_at : String
deriving DecidableEq, Repr

/-- SQL `COALESCE` on two nullable values: the first when it is non-null,
otherwise the second. -/
def coalesce (a b : Option String) : Option String :=
  match a with
  | some v => some v
  | none => b

/-- The `ON CONFLICT(id) DO UPDATE SET` clause, lines 136-142:
`title`/`url`/`user`/`points`/`scraped_at` take the excluded (new) values,
`time_posted = COALESCE(excluded.time_posted, posts.time_posted)`. -/
def mergeRow (old : StoredRow) (p : PostRec) (now : String) : StoredRow :=
  { id := old.id, title := p.title, url := p.url, user := p.user,
    points := p.points,
    time_posted := coalesce p.time_posted old.time_posted,
    scraped_at := now }

/-- The plain `INSERT` branch, lines 134-135, with `scraped_at` bound to the
run's timestamp (line 147). -/
def newRow (p : PostRec) (now : String) : StoredRow :=
  { id := p.id, title := p.title, url := p.url, user := p.user,
    points := p.points, time_posted := p.time_posted, scraped_at := now }

/-- One `conn.execute(sql, {**row, "scraped_at": now_iso})` (line 147): insert
when no row has this `id`, otherwise apply the conflict update to the
conflicting row(s). -/
def upsertOne (now : String) (t : List StoredRow) (p : PostRec) : List StoredRow :=
  if t.any (fun r => r.id = p.id) then
    t.map (fun r => if r.id = p.id then mergeRow r p now else r)
  else t ++ [newRow p now]

/-- `upsert_posts` (lines 130-147): `now_iso` is computed once, then every
record of the batch is executed in sequence order. -/
def upsert_posts (now : String) (t : List StoredRow) (ps : List PostRec) : List StoredRow :=
  ps.foldl (upsertOne now) t

/-- Look up the stored row with a given `id` (SQL point query on the primary
key). -/
def lookupRow (t : List StoredRow) (i : Int) : Option StoredRow :=
  t.find? (fun r => r.id = i)

/-! ### Transaction semantics of the batch (`with conn:`) -/

/-- Execute the batch writes one by one, numbering them from `k`; a write whose
index equals the injected failure point raises, surfacing the uncommitted table
state as the error value. -/
def execBatchAux (now : String) (failAt : Option Nat) :
    Nat → List StoredRow → List PostRec → Except (List StoredRow) (List StoredRow)
  | _, t, [] => .ok t
  | k, t, p :: rest =>
    if failAt = some k then .error t
    else execBatchAux now failAt (k + 1) (upsertOne now t p) rest

/-- The `with conn:` context manager: commit the body's final state on normal
exit, roll back to the entry state when the body raises.  The `Bool` records
whether the transaction committed. -/
def runTransaction (t : List StoredRow)
    (body : List StoredRow → Except (List StoredRow) (List StoredRow)) :
    List StoredRow × Bool :=
  match body t with
  | .ok t2 => (t2, true)
  | .error _ => (t, false)

/-- `upsert_posts` with its transaction wrapper (lines 145-147), with a failure
injected before write number `failAt` (counting from 0). -/
def upsert_posts_txn (now : String) (t : List StoredRow) (ps : List PostRec)
    (failAt : Option Nat) : List StoredRow × Bool :=
  runTransaction t (fun t0 => execBatchAux now failAt 0 t0 ps)

/-! ### `main` (lines 150-164) -/

/-- The stages of `main`'s try block that run after `sqlite3.connect`, in
program order.  `printSummary` is the `print` on line 159, which precedes
`conn.close()` on line 160. -/
inductive MainStage where
  | ensureDb
  | getHtml
  | parsePosts
  | upsertPosts
  | printSummary
deriving DecidableEq, Repr

/-- Outcome of a run of `main`: the returned exit code, and whether the
`conn.close()` statement was executed. -/
structure MainOutcome where
  exitCode : Nat
  connClosed : Bool
deriving DecidableEq, Repr

/-- `main` with a failure oracle: an exception raised at the given stage is
caught by the `except` clause (lines 162-164), which writes a diagnostic and
returns 1 without ever reaching `conn.close()`; with no failure the stages all
run, the summary is printed, the connection is closed and 0 is returned. -/
def mainRun (failAt : Option MainStage) : MainOutcome :=
  if failAt = some .ensureDb then { exitCode := 1, connClosed := false }
  else if failAt = some .getHtml then { exitCode := 1, connClosed := false }
  else if failAt = some .parsePosts then { exitCode := 1, connClosed := false }
  else if failAt = some .upsertPosts then { exitCode := 1, connClosed := false }
  else if failAt = some .printSummary then { exitCode := 1, connClosed := false }
  else { exitCode := 0, connClosed := true }

/-! ### Spec-side definitions (stated from the spec's words, for comparison) -/

/-- Spec side: the integer formed by concatenating all digit characters of the
text in order and reading them as a decimal numeral. -/
def specConcatDigits (txt : String) : Int :=
  ((txt.toList.filter Char.isDigit).foldl (fun a c => 10 * a + (c.toNat - 48)) 0 : Nat)

/-- Spec side: the last non-null value in a list of optional values. -/
def lastNonNull (l : List (Option String)) : Option String :=
  (l.filterMap (fun o => o)).reverse.head?

/-- Spec side: the last record in the batch carrying a given id. -/
def lastWithId (ps : List PostRec) (i : Int) : Option PostRec :=
  (ps.filter (fun p => p.id = i)).reverse.head?

/-! ### Concrete rows and records used to instantiate the theorems -/

/-- A well-formed item row with id 42. -/
def wGood : TrNode :=
  { isAthing := true, idAttr := some "42",
    titlelineAnchor := some { text := "Example", href := some "https://e.com" },
    storylinkAnchor := none, subtext := none }

/-- An item row whose identifier attribute is not numeric. -/
def wBad : TrNode :=
  { isAthing := true, idAttr := some "x9",
    titlelineAnchor := some { text := "Bad", href := none },
    storylinkAnchor := none, subtext := none }

/-- A well-formed item row with id 7 and no subtext anywhere after it. -/
def wNoSub : TrNode :=
  { isAthing := true, idAttr := some "7",
    titlelineAnchor := some { text := "Hello", href := none },
    storylinkAnchor := none, subtext := none }

/-- A sample extracted record with a non-null `time_posted`. -/
def wRec : PostRec :=
  { id := 42, title := "Example", url := "https://e.com", user := some "alice",
    points := 10, time_posted := some "2024-01-01T00:00:00Z" }

/-- A sample extracted record for the same id with a null `time_posted`. -/
def wRecNull : PostRec :=
  { id := 42, title := "Example 2", url := "https://e.org", user := none,
    points := 11, time_posted := none }

/-- A stored row for id 42 with a non-null `time_posted`. -/
def wStored : StoredRow :=
  { id := 42, title := "Old", url := "https://old.com", user := some "bob",
    points := 3, time_posted := some "2023-06-01T00:00:00Z",
    scraped_at := "2023-06-02T00:00:00Z" }

/-! ### Helper lemmas: Python `int()` on digit strings -/

theorem isDigit_not_isWhitespace (c : Char) (h : c.isDigit = true) :
    c.isWhitespace = false := by
  have hs : c ≠ ' ' := fun h1 => by rw [h1] at h; exact absurd h (by decide)
  have ht : c ≠ '\t' := fun h1 => by rw [h1] at h; exact absurd h (by decide)
  have hr : c ≠ '\r' := fun h1 => by rw [h1] at h; exact absurd h (by decide)
  have hn : c ≠ '\n' := fun h1 => by rw [h1] at h; exact absurd h (by decide)
  simp only [Char.isWhitespace, decide_eq_false hs, decide_eq_false ht,
    decide_eq_false hr, decide_eq_false hn, Bool.or_self]

theorem dropWhile_eq_self_of_false {p : Char → Bool} (l : List Char)
    (h : ∀ c ∈ l, p c = false) : l.dropWhile p = l := by
  cases l with
  | nil => rfl
  | cons a tl => simp [List.dropWhile_cons, h a (List.mem_cons_self a tl)]

theorem trimChars_eq_self {cs : List Char} (h : ∀ c ∈ cs, c.isWhitespace = false) :
    trimChars cs = cs := by
  unfold trimChars
  rw [dropWhile_eq_self_of_false cs h,
      dropWhile_eq_self_of_false cs.reverse
        (fun c hc => h c (List.mem_reverse.mp hc)),
      List.reverse_reverse]

theorem pyDigits_all_digits {ds : List Char} (hne : ds ≠ [])
    (hd : ∀ c ∈ ds, c.isDigit = true) : pyDigits ds = some (digitsToNat ds) := by
  simp [pyDigits, hne, List.all_eq_true.mpr hd]

theorem pyIntChars_digits {ds : List Char} (hne : ds ≠ [])
    (hd : ∀ c ∈ ds, c.isDigit = true) :
    pyIntChars ds = some ((digitsToNat ds : Nat) : Int) := by
  unfold pyIntChars
  rw [trimChars_eq_self (fun c hc => isDigit_not_isWhitespace c (hd c hc))]
  cases ds with
  | nil => exact absurd rfl hne
  | cons a tl =>
    have ha := hd a (List.mem_cons_self a tl)
    have hm : a ≠ '-' := by intro h1; rw [h1] at ha; exact absurd ha (by decide)
    have hp : a ≠ '+' := by intro h1; rw [h1] at ha; exact absurd ha (by decide)
    simp [hm, hp, pyDigits_all_digits (List.cons_ne_nil a tl) hd]

/-! ### Helper lemmas: `parse_posts` -/

theorem findSubtext_none (rest : List SibNode)
    (h : ∀ tn : TrNode, SibNode.tr tn ∈ rest → tn.subtext = none) :
    findSubtext rest = none := by
  induction rest with
  | nil => rfl
  | cons n tl ih =>
    cases n with
    | other =>
      exact ih (fun tn htn => h tn (List.mem_cons_of_mem _ htn))
    | tr t => exact h t (List.mem_cons_self _ _)

theorem parseRow_some_valid {t : TrNode} {rest : List SibNode} {p : PostRec}
    (h : parseRow t rest = some p) : 0 < p.id ∧ p.title ≠ "" := by
  cases hid : rowPostId t with
  | none =>
    simp only [parseRow, hid] at h
    exact Option.noConfusion h
  | some i =>
    simp only [parseRow, hid] at h
    by_cases hc : i ≤ 0 ∨ rowTitle t = ""
    · rw [if_pos hc] at h; exact absurd h (by simp)
    · rw [if_neg hc] at h
      push_neg at hc
      cases h
      exact hc

theorem mem_parse_posts_valid (doc : List SibNode) (p : PostRec)
    (hp : p ∈ parse_posts doc) : 0 < p.id ∧ p.title ≠ "" := by
  induction doc with
  | nil => simp [parse_posts] at hp
  | cons n rest ih =>
    cases n with
    | other => exact ih (by simpa [parse_posts] using hp)
    | tr t =>
      by_cases hath : t.isAthing
      · rw [parse_posts, if_pos hath] at hp
        cases hpr : parseRow t rest with
        | none => rw [hpr] at hp; exact ih hp
        | some q =>
          rw [hpr] at hp
          rcases List.mem_cons.mp hp with rfl | hmem
          · exact parseRow_some_valid hpr
          · exact ih hmem
      · rw [parse_posts, if_neg hath] at hp
        exact ih hp

theorem parseRow_invalid_none (t : TrNode) (rest : List SibNode)
    (h : rowPostId t = none ∨ (∃ i, rowPostId t = some i ∧ i ≤ 0) ∨ rowTitle t = "") :
    parseRow t rest = none := by
  rcases h with h1 | ⟨i, hi, hle⟩ | h1
  · simp only [parseRow, h1]
  · simp only [parseRow, hi]
    exact if_pos (Or.inl hle)
  · cases hid : rowPostId t with
    | none => simp only [parseRow, hid]
    | some i =>
      simp only [parseRow, hid]
      exact if_pos (Or.inr h1)

/-! ### Claim theorems: extraction -/

/-- C2: every record produced by `parse_posts` has a positive integer id and a
nonempty title, and an `athing` row whose identifier is missing/non-numeric,
non-positive, or whose title is empty contributes no record. -/
theorem parse_posts_discard_invalid :
    (∀ (doc : List SibNode) (p : PostRec),
        p ∈ parse_posts doc → 0 < p.id ∧ p.title ≠ "") ∧
    (∀ (t : TrNode) (rest : List SibNode),
        (rowPostId t = none ∨ (∃ i, rowPostId t = some i ∧ i ≤ 0) ∨ rowTitle t = "") →
        parse_posts (SibNode.tr t :: rest) = parse_posts rest) := by
  constructor
  · exact mem_parse_posts_valid
  · intro t rest h
    by_cases hath : t.isAthing
    · rw [parse_posts, if_pos hath, parseRow_invalid_none t rest h]
    · rw [parse_posts, if_neg hath]

/-- C2 witness: a two-row document whose first row is valid (id 42) and whose
second `athing` row has a non-numeric identifier and so is discarded. -/
theorem parse_posts_discard_invalid_witness :
    (∀ p ∈ parse_posts [SibNode.tr wGood, SibNode.tr wBad], 0 < p.id ∧ p.title ≠ "") ∧
    parse_posts [SibNode.tr wBad] = parse_posts [] := by
  constructor
  · intro p hp
    exact parse_posts_discard_invalid.1 _ p hp
  · exact parse_posts_discard_invalid.2 _ _ (Or.inl (by decide))

/-- C5: the extracted points value is the decimal reading of the digit
characters of the score text in order; it is 0 when the text has no digits or
the score element (or whole subtext cell) is absent, and "1234 points" gives
1234. -/
theorem points_digit_concat :
    (∀ txt, pointsOfScoreText txt = specConcatDigits txt) ∧
    (∀ txt, txt.toList.filter Char.isDigit = [] → pointsOfScoreText txt = 0) ∧
    subtextPoints none = 0 ∧
    (∀ st, st.score = none → subtextPoints (some st) = 0) ∧
    pointsOfScoreText "1234 points" = 1234 := by
  have key : ∀ txt, pointsOfScoreText txt = specConcatDigits txt := by
    intro txt
    unfold pointsOfScoreText specConcatDigits
    by_cases he : (txt.toList.filter Char.isDigit).isEmpty
    · rw [if_pos he]
      rw [List.isEmpty_iff] at he
      rw [he]
      rfl
    · rw [if_neg he]
      rw [List.isEmpty_iff] at he
      rw [pyIntChars_digits he
        (fun c hc => (List.mem_filter.mp hc).2)]
      rfl
  refine ⟨key, ?_, rfl, ?_, ?_⟩
  · intro txt hf
    unfold pointsOfScoreText
    rw [hf]
    rfl
  · intro st hs
    simp [subtextPoints, hs]
  · rw [key]
    decide

/-- C5 witness: a score text without digit characters yields 0. -/
theorem points_digit_concat_witness :
    ("no score here" : String).toList.filter Char.isDigit = [] ∧
    pointsOfScoreText "no score here" = 0 :=
  ⟨by decide, points_digit_concat.2.1 "no score here" (by decide)⟩

/-- C6: the stored url is the href rewritten by prefixing the site origin
exactly when it starts with `item?id=`, is the href unchanged otherwise, and
is the empty string when the row has no title anchor. -/
theorem url_normalization :
    ∀ t : TrNode,
      (∀ a u, rowAnchor t = some a → a.href = some u →
        rowUrl t =
          if u.startsWith "item?id=" then "https://news.ycombinator.com/" ++ u
          else u) ∧
      (rowAnchor t = none → rowUrl t = "") := by
  intro t
  constructor
  · intro a u ha hu
    simp only [rowUrl, ha, hu]
  · intro ha
    simp only [rowUrl, ha]
    decide

/-- C6 witness: an internal `item?id=42` link is rewritten to the absolute item
URL, an external link passes through, and a row with no anchor yields "". -/
theorem url_normalization_witness :
    rowUrl { isAthing := true, idAttr := some "1",
             titlelineAnchor := some { text := "T", href := some "item?id=42" },
             storylinkAnchor := none, subtext := none } =
      (if ("item?id=42").startsWith "item?id=" then
        "https://news.ycombinator.com/" ++ "item?id=42" else "item?id=42") ∧
    rowUrl { isAthing := true, idAttr := some "2",
             titlelineAnchor := some { text := "T", href := some "https://e.com/x" },
             storylinkAnchor := none, subtext := none } =
      (if ("https://e.com/x").startsWith "item?id=" then
        "https://news.ycombinator.com/" ++ "https://e.com/x" else "https://e.com/x") ∧
    rowUrl { isAthing := true, idAttr := some "3", titlelineAnchor := none,
             storylinkAnchor := none, subtext := none } = "" :=
  ⟨(url_normalization _).1 _ _ rfl rfl,
   (url_normalization _).1 _ _ rfl rfl,
   (url_normalization _).2 rfl⟩

/-- C7: when no forward sibling of row type contains a subtext cell, a row with
a valid id and title still yields a record, with null user, 0 points and null
time_posted. -/
theorem subtext_absent_defaults :
    ∀ (t : TrNode) (rest : List SibNode) (i : Int),
      (∀ tn : TrNode, SibNode.tr tn ∈ rest → tn.subtext = none) →
      rowPostId t = some i → 0 < i → rowTitle t ≠ "" →
      parseRow t rest =
        some { id := i, title := rowTitle t, url := rowUrl t,
               user := none, points := 0, time_posted := none } := by
  intro t rest i hstx hid hpos htitle
  simp only [parseRow, hid, findSubtext_none rest hstx]
  rw [if_neg (by push_neg; exact ⟨by omega, htitle⟩)]
  rfl

/-- C7 witness: a valid row followed only by a non-row sibling still produces
a record with default secondary fields. -/
theorem subtext_absent_defaults_witness :
    parseRow wNoSub [SibNode.other] =
      some { id := 7, title := rowTitle wNoSub, url := rowUrl wNoSub,
             user := none, points := 0, time_posted := none } :=
  subtext_absent_defaults wNoSub [SibNode.other] 7
    (fun tn htn => by simp at htn) (by decide) (by decide) (by decide)

/-! ### Helper lemmas: the upsert -/

theorem find?_map_merge (now : String) (p : PostRec) :
    ∀ t : List StoredRow,
      (t.map (fun r => if r.id = p.id then mergeRow r p now else r)).find?
          (fun r => r.id = p.id)
        = (t.find? (fun r => r.id = p.id)).map (fun old => mergeRow old p now) := by
  intro t
  induction t with
  | nil => rfl
  | cons r tl ih =>
    by_cases h : r.id = p.id
    · rw [List.map_cons, if_pos h,
          List.find?_cons_of_pos _ (by simp [mergeRow, h]),
          List.find?_cons_of_pos _ (by simp [h])]
      rfl
    · rw [List.map_cons, if_neg h,
          List.find?_cons_of_neg _ (by simp [h]),
          List.find?_cons_of_neg _ (by simp [h]), ih]

theorem find?_map_preserve (now : String) (p : PostRec) (i : Int) (hne : i ≠ p.id) :
    ∀ t : List StoredRow,
      (t.map (fun r => if r.id = p.id then mergeRow r p now else r)).find?
          (fun r => r.id = i)
        = t.find? (fun r => r.id = i) := by
  intro t
  induction t with
  | nil => rfl
  | cons r tl ih =>
    by_cases h2 : r.id = i
    · have h3 : ¬ r.id = p.id := fun hh => hne (h2 ▸ hh)
      rw [List.map_cons, if_neg h3,
          List.find?_cons_of_pos _ (by simp [h2]),
          List.find?_cons_of_pos _ (by simp [h2])]
    · have hid : (if r.id = p.id then mergeRow r p now else r).id = r.id := by
        by_cases h : r.id = p.id <;> simp [mergeRow, h]
      rw [List.map_cons,
          List.find?_cons_of_neg _ (by simp [hid, h2]),
          List.find?_cons_of_neg _ (by simp [h2]), ih]

theorem find?_append_single_ne {pred : StoredRow → Bool} (a : StoredRow)
    (ha : ¬ pred a = true) :
    ∀ t : List StoredRow, (t ++ [a]).find? pred = t.find? pred := by
  intro t
  induction t with
  | nil => rw [List.nil_append, List.find?_cons_of_neg _ ha]
  | cons r tl ih =>
    by_cases h : pred r = true
    · rw [List.cons_append, List.find?_cons_of_pos _ h, List.find?_cons_of_pos _ h]
    · rw [List.cons_append, List.find?_cons_of_neg _ h,
          List.find?_cons_of_neg _ h, ih]

theorem find?_append_single_none {pred : StoredRow → Bool} (a : StoredRow)
    (ha : pred a = true) :
    ∀ t : List StoredRow, t.find? pred = none → (t ++ [a]).find? pred = some a := by
  intro t
  induction t with
  | nil => intro _; simp [List.find?_cons_of_pos _ ha]
  | cons r tl ih =>
    intro ht
    by_cases h : pred r = true
    · rw [List.find?_cons_of_pos _ h] at ht
      exact Option.noConfusion ht
    · rw [List.find?_cons_of_neg _ h] at ht
      rw [List.cons_append, List.find?_cons_of_neg _ h, ih ht]

theorem lookupRow_upsertOne_self (now : String) (t : List StoredRow) (p : PostRec) :
    lookupRow (upsertOne now t p) p.id =
      some (match lookupRow t p.id with
            | some old => mergeRow old p now
            | none => newRow p now) := by
  unfold lookupRow upsertOne
  by_cases h : t.any (fun r => r.id = p.id)
  · rw [if_pos h, find?_map_merge]
    rcases List.any_eq_true.mp h with ⟨r, hr, hri⟩
    cases hf : t.find? (fun r => r.id = p.id) with
    | none =>
      exfalso
      have := List.find?_eq_none.mp hf r hr
      exact this hri
    | some old => rfl
  · rw [if_neg h]
    have hf : t.find? (fun r => r.id = p.id) = none := by
      rw [List.find?_eq_none]
      intro x hx hxd
      exact h (List.any_eq_true.mpr ⟨x, hx, hxd⟩)
    rw [find?_append_single_none _ (by simp [newRow]) t hf, hf]

theorem lookupRow_upsertOne_ne (now : String) (t : List StoredRow) (p : PostRec)
    (i : Int) (hne : i ≠ p.id) :
    lookupRow (upsertOne now t p) i = lookupRow t i := by
  unfold lookupRow upsertOne
  by_cases h : t.any (fun r => r.id = p.id)
  · rw [if_pos h, find?_map_preserve now p i hne]
  · rw [if_neg h, find?_append_single_ne _ (by simp [newRow]; exact fun hh => hne hh.symm) t]

theorem mem_upsertOne_id_scraped (now : String) (t : List StoredRow) (p : PostRec)
    (r : StoredRow) (hr : r ∈ upsertOne now t p) (hid : r.id = p.id) :
    r.scraped_at = now := by
  unfold upsertOne at hr
  by_cases h : t.any (fun x => x.id = p.id)
  · rw [if_pos h] at hr
    rcases List.mem_map.mp hr with ⟨x, hx, hxe⟩
    by_cases h2 : x.id = p.id
    · rw [if_pos h2] at hxe
      rw [← hxe]
      rfl
    · rw [if_neg h2] at hxe
      rw [← hxe] at hid
      exact absurd hid h2
  · rw [if_neg h] at hr
    rcases List.mem_append.mp hr with hx | hx
    · exact absurd (List.any_eq_true.mpr ⟨r, hx, by simp [hid]⟩) h
    · rw [List.mem_singleton.mp hx]
      rfl

theorem mem_upsertOne_ne_mem (now : String) (t : List StoredRow) (p : PostRec)
    (r : StoredRow) (hr : r ∈ upsertOne now t p) (hid : ¬ r.id = p.id) : r ∈ t := by
  unfold upsertOne at hr
  by_cases h : t.any (fun x => x.id = p.id)
  · rw [if_pos h] at hr
    rcases List.mem_map.mp hr with ⟨x, hx, hxe⟩
    by_cases h2 : x.id = p.id
    · rw [if_pos h2] at hxe
      exact absurd (hxe ▸ h2) hid
    · rw [if_neg h2] at hxe
      rw [← hxe]
      exact hx
  · rw [if_neg h] at hr
    rcases List.mem_append.mp hr with hx | hx
    · exact hx
    · rw [List.mem_singleton.mp hx] at hid
      exact absurd rfl hid

theorem mem_upsert_posts_not_touched (now : String) :
    ∀ (ps : List PostRec) (t : List StoredRow) (r : StoredRow),
      r ∈ upsert_posts now t ps → r.id ∉ ps.map (fun p => p.id) → r ∈ t := by
  intro ps
  induction ps with
  | nil => intro t r hr _; exact hr
  | cons p rest ih =>
    intro t r hr hnot
    simp only [List.map_cons, List.mem_cons] at hnot
    push_neg at hnot
    exact mem_upsertOne_ne_mem now t p r (ih _ r hr hnot.2) hnot.1

theorem lookupRow_upsert_posts_notin (now : String) :
    ∀ (ps : List PostRec) (t : List StoredRow) (i : Int),
      i ∉ ps.map (fun p => p.id) →
      lookupRow (upsert_posts now t ps) i = lookupRow t i := by
  intro ps
  induction ps with
  | nil => intro t i _; rfl
  | cons p rest ih =>
    intro t i h
    simp only [List.map_cons, List.mem_cons] at h
    push_neg at h
    have hstep : upsert_posts now t (p :: rest)
        = upsert_posts now (upsertOne now t p) rest := rfl
    rw [hstep, ih _ i h.2, lookupRow_upsertOne_ne now t p i h.1]

theorem ids_map_merge (now : String) (p : PostRec) :
    ∀ t : List StoredRow,
      (t.map (fun r => if r.id = p.id then mergeRow r p now else r)).map
          (fun r => r.id)
        = t.map (fun r => r.id) := by
  intro t
  induction t with
  | nil => rfl
  | cons r tl ih =>
    rw [List.map_cons, List.map_cons, List.map_cons, ih]
    congr 1
    by_cases h : r.id = p.id <;> simp [mergeRow, h]

theorem filter_id_eq_nil_of_notin (i : Int) :
    ∀ t : List StoredRow,
      i ∉ t.map (fun r => r.id) → t.filter (fun r => r.id = i) = [] := by
  intro t
  induction t with
  | nil => intro _; rfl
  | cons r tl ih =>
    intro h
    simp only [List.map_cons, List.mem_cons] at h
    push_neg at h
    have h1 : ¬ r.id = i := fun hh => h.1 hh.symm
    simp [List.filter_cons, h1, ih h.2]

theorem filter_count_merge (now : String) (p : PostRec) :
    ∀ t : List StoredRow,
      ((t.map (fun r => if r.id = p.id then mergeRow r p now else r)).filter
          (fun r => r.id = p.id)).length
        = (t.filter (fun r => r.id = p.id)).length := by
  intro t
  induction t with
  | nil => rfl
  | cons r tl ih =>
    by_cases h : r.id = p.id <;>
      simp [h, mergeRow, List.filter_cons] <;>
      simpa [mergeRow] using ih

theorem nodup_filter_len (i : Int) :
    ∀ t : List StoredRow,
      (t.map (fun r => r.id)).Nodup → i ∈ t.map (fun r => r.id) →
      (t.filter (fun r => r.id = i)).length = 1 := by
  intro t
  induction t with
  | nil => intro _ h; simp at h
  | cons r tl ih =>
    intro hnd hmem
    simp only [List.map_cons, List.nodup_cons] at hnd
    by_cases h : r.id = i
    · simp [List.filter_cons, h, filter_id_eq_nil_of_notin i tl (h ▸ hnd.1)]
    · have h1 : i ∈ tl.map (fun r => r.id) := by
        rcases (by simpa using hmem : i = r.id ∨ ∃ a ∈ tl, a.id = i) with hh | ⟨a, ha, hai⟩
        · exact absurd hh.symm h
        · exact List.mem_map.mpr ⟨a, ha, hai⟩
      simp [List.filter_cons, h, ih hnd.2 h1]

theorem ids_upsertOne_nodup (now : String) (t : List StoredRow) (p : PostRec)
    (h : (t.map (fun r => r.id)).Nodup) :
    ((upsertOne now t p).map (fun r => r.id)).Nodup := by
  unfold upsertOne
  by_cases ha : t.any (fun r => r.id = p.id)
  · rw [if_pos ha, ids_map_merge]
    exact h
  · rw [if_neg ha]
    have hni : p.id ∉ t.map (fun r => r.id) := by
      intro hmem
      rcases List.mem_map.mp hmem with ⟨x, hx, hxe⟩
      exact absurd (List.any_eq_true.mpr ⟨x, hx, by simp [hxe]⟩) ha
    simp [List.map_append, newRow, List.nodup_append, h, hni]

theorem mem_ids_upsertOne_self (now : String) (t : List StoredRow) (p : PostRec) :
    p.id ∈ (upsertOne now t p).map (fun r => r.id) := by
  unfold upsertOne
  by_cases ha : t.any (fun r => r.id = p.id)
  · rw [if_pos ha, ids_map_merge]
    rcases List.any_eq_true.mp ha with ⟨x, hx, hxi⟩
    exact List.mem_map.mpr ⟨x, hx, by simpa using hxi⟩
  · rw [if_neg ha]
    simp [newRow]

theorem any_of_mem_ids (t : List StoredRow) (i : Int)
    (h : i ∈ t.map (fun r => r.id)) : t.any (fun r => r.id = i) = true := by
  rcases List.mem_map.mp h with ⟨x, hx, hxe⟩
  exact List.any_eq_true.mpr ⟨x, hx, by simp [hxe]⟩

theorem upsertOne_length_any (now : String) (t : List StoredRow) (p : PostRec)
    (ha : t.any (fun r => r.id = p.id) = true) :
    (upsertOne now t p).length = t.length := by
  rw [upsertOne, if_pos ha, List.length_map]

/-! ### Claim theorems: the store -/

/-- C1: upserting a record whose id already has a stored row overwrites
`title`/`url`/`user`/`points` with the new values and `scraped_at` with the
run's timestamp, while `time_posted` takes the new value only when it is
non-null and otherwise keeps the stored one. -/
theorem upsert_conflict_merge :
    ∀ (now : String) (t : List StoredRow) (p : PostRec) (old : StoredRow),
      lookupRow t p.id = some old →
      lookupRow (upsertOne now t p) p.id =
        some { id := p.id, title := p.title, url := p.url, user := p.user,
               points := p.points,
               time_posted := coalesce p.time_posted old.time_posted,
               scraped_at := now } := by
  intro now t p old h
  have hid : old.id = p.id := by simpa using List.find?_some h
  rw [lookupRow_upsertOne_self, h]
  simp [mergeRow, hid]

/-- C1 witness: re-upserting id 42 with a null `time_posted` keeps the stored
timestamp while overwriting the other fields. -/
theorem upsert_conflict_merge_witness :
    lookupRow [wStored] wRecNull.id = some wStored ∧
    lookupRow (upsertOne "2025-01-01T00:00:00Z" [wStored] wRecNull) wRecNull.id =
      some { id := wRecNull.id, title := wRecNull.title, url := wRecNull.url,
             user := wRecNull.user, points := wRecNull.points,
             time_posted := coalesce wRecNull.time_posted wStored.time_posted,
             scraped_at := "2025-01-01T00:00:00Z" } :=
  ⟨by decide,
   upsert_conflict_merge "2025-01-01T00:00:00Z" [wStored] wRecNull wStored (by decide)⟩

/-- C3: the batch runs inside one transaction: when any write fails the table
is left exactly in its pre-batch state, and when none fails the result is the
full sequential upsert of the batch. -/
theorem upsert_batch_atomic :
    ∀ (now : String) (t : List StoredRow) (ps : List PostRec) (failAt : Option Nat),
      ((upsert_posts_txn now t ps failAt).2 = false →
        (upsert_posts_txn now t ps failAt).1 = t) ∧
      ((upsert_posts_txn now t ps failAt).2 = true →
        (upsert_posts_txn now t ps failAt).1 = upsert_posts now t ps) := by
  have execOk : ∀ (now : String) (failAt : Option Nat) (ps : List PostRec)
      (k : Nat) (t t2 : List StoredRow),
      execBatchAux now failAt k t ps = Except.ok t2 → t2 = upsert_posts now t ps := by
    intro now failAt ps
    induction ps with
    | nil =>
      intro k t t2 h
      cases h
      rfl
    | cons p rest ih =>
      intro k t t2 h
      simp only [execBatchAux] at h
      by_cases hf : failAt = some k
      · rw [if_pos hf] at h
        exact Except.noConfusion h
      · rw [if_neg hf] at h
        exact ih (k + 1) (upsertOne now t p) t2 h
  intro now t ps failAt
  simp only [upsert_posts_txn, runTransaction]
  cases hb : execBatchAux now failAt 0 t ps with
  | ok t2 =>
    refine ⟨fun h => absurd h (by simp), fun _ => ?_⟩
    exact execOk now failAt ps 0 t t2 hb
  | error te =>
    exact ⟨fun _ => rfl, fun h => absurd h (by simp)⟩

/-- C3 witness: a failure injected before the first write leaves the table in
its pre-batch state; with no failure the whole batch is applied. -/
theorem upsert_batch_atomic_witness :
    (upsert_posts_txn "T" [wStored] [wRec] (some 0)).2 = false ∧
    (upsert_posts_txn "T" [wStored] [wRec] (some 0)).1 = [wStored] ∧
    (upsert_posts_txn "T" [wStored] [wRec] none).2 = true ∧
    (upsert_posts_txn "T" [wStored] [wRec] none).1 = upsert_posts "T" [wStored] [wRec] :=
  ⟨by decide,
   (upsert_batch_atomic "T" [wStored] [wRec] (some 0)).1 (by decide),
   by decide,
   (upsert_batch_atomic "T" [wStored] [wRec] none).2 (by decide)⟩

/-- C4: upserting the same record twice into a table with no duplicate ids
leaves exactly one row with that id; the second upsert changes no row count
and duplicate-freedom is preserved. -/
theorem upsert_idempotent_single_row :
    ∀ (now1 now2 : String) (t : List StoredRow) (p : PostRec),
      (t.map (fun r => r.id)).Nodup →
      ((upsertOne now2 (upsertOne now1 t p) p).filter
          (fun r => r.id = p.id)).length = 1 ∧
      (upsertOne now2 (upsertOne now1 t p) p).length
        = (upsertOne now1 t p).length ∧
      ((upsertOne now2 (upsertOne now1 t p) p).map (fun r => r.id)).Nodup := by
  intro now1 now2 t p hnd
  have hnd1 := ids_upsertOne_nodup now1 t p hnd
  have hmem1 := mem_ids_upsertOne_self now1 t p
  have hany1 := any_of_mem_ids (upsertOne now1 t p) p.id hmem1
  refine ⟨?_, ?_, ids_upsertOne_nodup now2 _ p hnd1⟩
  · have hn2 := ids_upsertOne_nodup now2 (upsertOne now1 t p) p hnd1
    have hm2 := mem_ids_upsertOne_self now2 (upsertOne now1 t p) p
    exact nodup_filter_len p.id _ hn2 hm2
  · exact upsertOne_length_any now2 (upsertOne now1 t p) p hany1

/-- C4 witness: upserting the sample record twice into a one-row table leaves
one row with its id and does not grow the table on the second write. -/
theorem upsert_idempotent_single_row_witness :
    ([wStored].map (fun r => r.id)).Nodup ∧
    ((upsertOne "N2" (upsertOne "N1" [wStored] wRec) wRec).filter
        (fun r => r.id = wRec.id)).length = 1 ∧
    (upsertOne "N2" (upsertOne "N1" [wStored] wRec) wRec).length
      = (upsertOne "N1" [wStored] wRec).length ∧
    ((upsertOne "N2" (upsertOne "N1" [wStored] wRec) wRec).map
        (fun r => r.id)).Nodup :=
  ⟨by decide, upsert_idempotent_single_row "N1" "N2" [wStored] wRec (by decide)⟩

/-- C9: every row whose id is touched by the batch carries the single
`scraped_at` timestamp computed once for the whole call. -/
theorem scraped_at_uniform :
    ∀ (now : String) (ps : List PostRec) (t : List StoredRow) (r : StoredRow),
      r ∈ upsert_posts now t ps → r.id ∈ ps.map (fun p => p.id) →
      r.scraped_at = now := by
  intro now ps
  induction ps with
  | nil => intro t r _ hmem; simp at hmem
  | cons p rest ih =>
    intro t r hr hmem
    by_cases hm : r.id ∈ rest.map (fun p => p.id)
    · exact ih _ r hr hm
    · have h1 : r.id = p.id := by
        rcases (by simpa using hmem : r.id = p.id ∨ ∃ a ∈ rest, a.id = r.id)
          with h | ⟨a, ha, hai⟩
        · exact h
        · exact absurd (List.mem_map.mpr ⟨a, ha, hai⟩) hm
      exact mem_upsertOne_id_scraped now t p r
        (mem_upsert_posts_not_touched now rest _ r hr hm) h1

/-- C9 witness: the row written for the sample record carries the batch
timestamp. -/
theorem scraped_at_uniform_witness :
    newRow wRec "T" ∈ upsert_posts "T" [] [wRec] ∧
    (newRow wRec "T").id ∈ [wRec].map (fun p => p.id) ∧
    (newRow wRec "T").scraped_at = "T" :=
  ⟨by decide, by decide,
   scraped_at_uniform "T" [wRec] [] (newRow wRec "T") (by decide) (by decide)⟩

/-! ### Helper lemmas: last write wins -/

theorem coalesce_none_right (a : Option String) : coalesce a none = a := by
  cases a <;> rfl

theorem head?_append_left {α : Type} (l m : List α) (h : l ≠ []) :
    (l ++ m).head? = l.head? := by
  cases l with
  | nil => exact absurd rfl h
  | cons a tl => rfl

theorem lastNonNull_cons (x : Option String) (l : List (Option String))
    (b : Option String) :
    coalesce (lastNonNull (x :: l)) b
      = coalesce (lastNonNull l) (coalesce x b) := by
  cases x with
  | none => simp [lastNonNull, coalesce]
  | some v =>
    unfold lastNonNull
    rw [List.filterMap_cons]
    simp only [List.reverse_cons]
    cases hm : (l.filterMap (fun o => o)).reverse with
    | nil => simp [coalesce]
    | cons a tl => simp [coalesce]

theorem lookup_upsertOne_time (now : String) (t : List StoredRow) (p : PostRec) :
    (lookupRow (upsertOne now t p) p.id).bind (fun r => r.time_posted)
      = coalesce p.time_posted ((lookupRow t p.id).bind (fun r => r.time_posted)) := by
  rw [lookupRow_upsertOne_self]
  cases h : lookupRow t p.id with
  | some old => simp [mergeRow]
  | none => simp [newRow, coalesce_none_right]

theorem mem_ids_filter_ne_nil (i : Int) (ps : List PostRec)
    (h : i ∈ ps.map (fun p => p.id)) : ps.filter (fun p => p.id = i) ≠ [] := by
  rcases List.mem_map.mp h with ⟨q, hq, hqi⟩
  intro hnil
  have hmf : q ∈ ps.filter (fun p => p.id = i) :=
    List.mem_filter.mpr ⟨hq, by simp [hqi]⟩
  rw [hnil] at hmf
  simp at hmf

theorem filter_ps_eq_nil_of_notin (i : Int) :
    ∀ ps : List PostRec,
      i ∉ ps.map (fun p => p.id) → ps.filter (fun p => p.id = i) = [] := by
  intro ps
  induction ps with
  | nil => intro _; rfl
  | cons p rest ih =>
    intro h
    simp only [List.map_cons, List.mem_cons] at h
    push_neg at h
    have h1 : ¬ p.id = i := fun hh => h.1 hh.symm
    simp [List.filter_cons, h1, ih h.2]

theorem lastWithId_cons_skip (p : PostRec) (rest : List PostRec) (i : Int)
    (hp : p.id = i) (hne : rest.filter (fun q => q.id = i) ≠ []) :
    lastWithId (p :: rest) i = lastWithId rest i := by
  unfold lastWithId
  rw [show (p :: rest).filter (fun q => q.id = i)
        = p :: rest.filter (fun q => q.id = i) from by simp [List.filter_cons, hp],
      List.reverse_cons, head?_append_left]
  intro hrev
  exact hne (List.reverse_eq_nil_iff.mp hrev)

/-- C10: when a batch contains several records with the same id, the stored row
afterwards carries the title/url/user/points of the last such record, and its
`time_posted` is the last non-null `time_posted` among them, falling back to
the previously stored value. -/
theorem upsert_last_write_wins :
    ∀ (now : String) (ps : List PostRec) (t : List StoredRow) (i : Int),
      i ∈ ps.map (fun p => p.id) →
      ∃ q, lastWithId ps i = some q ∧
        lookupRow (upsert_posts now t ps) i =
          some { id := i, title := q.title, url := q.url, user := q.user,
                 points := q.points,
                 time_posted :=
                   coalesce
                     (lastNonNull
                       ((ps.filter (fun p => p.id = i)).map (fun p => p.time_posted)))
                     ((lookupRow t i).bind (fun r => r.time_posted)),
                 scraped_at := now } := by
  intro now ps
  induction ps with
  | nil => intro t i h; simp at h
  | cons p rest ih =>
    intro t i hmem
    have hfold : upsert_posts now t (p :: rest)
        = upsert_posts now (upsertOne now t p) rest := rfl
    by_cases hm : i ∈ rest.map (fun q => q.id)
    · obtain ⟨q, hq, hlook⟩ := ih (upsertOne now t p) i hm
      by_cases hp : p.id = i
      · refine ⟨q, ?_, ?_⟩
        · rw [lastWithId_cons_skip p rest i hp (mem_ids_filter_ne_nil i rest hm)]
          exact hq
        · rw [hfold, hlook]
          have h1 : (lookupRow (upsertOne now t p) i).bind (fun r => r.time_posted)
              = coalesce p.time_posted ((lookupRow t i).bind (fun r => r.time_posted)) := by
            rw [← hp]
            exact lookup_upsertOne_time now t p
          have h2 : (p :: rest).filter (fun q => q.id = i)
              = p :: rest.filter (fun q => q.id = i) := by
            simp [List.filter_cons, hp]
          rw [h1, h2, List.map_cons, lastNonNull_cons]
      · refine ⟨q, ?_, ?_⟩
        · have h2 : (p :: rest).filter (fun q => q.id = i)
              = rest.filter (fun q => q.id = i) := by
            simp [List.filter_cons, hp]
          unfold lastWithId
          rw [h2]
          exact hq
        · rw [hfold, hlook,
              lookupRow_upsertOne_ne now t p i (fun hh => hp hh.symm),
              show (p :: rest).filter (fun q => q.id = i)
                = rest.filter (fun q => q.id = i) from by simp [List.filter_cons, hp]]
    · have hp : p.id = i := by
        rcases (by simpa using hmem : i = p.id ∨ ∃ a ∈ rest, a.id = i)
          with h | ⟨a, ha, hai⟩
        · exact h.symm
        · exact absurd (List.mem_map.mpr ⟨a, ha, hai⟩) hm
      subst hp
      have hfr : rest.filter (fun q => q.id = p.id) = [] :=
        filter_ps_eq_nil_of_notin p.id rest hm
      have h2 : (p :: rest).filter (fun q => q.id = p.id) = [p] := by
        simp [List.filter_cons, hfr]
      refine ⟨p, ?_, ?_⟩
      · unfold lastWithId
        rw [h2]
        rfl
      · rw [hfold, lookupRow_upsert_posts_notin now rest (upsertOne now t p) p.id hm,
            lookupRow_upsertOne_self, h2]
        cases hl : lookupRow t p.id with
        | some old =>
          have hoid : old.id = p.id := by simpa using List.find?_some hl
          cases hpt : p.time_posted <;>
            simp [mergeRow, lastNonNull, coalesce, hoid, hpt]
        | none =>
          cases hpt : p.time_posted <;>
            simp [newRow, lastNonNull, coalesce, hpt]

/-- C10 witness: a batch holding two records for id 42, the second with a null
`time_posted`, ends with the second record's fields and the first record's
timestamp. -/
theorem upsert_last_write_wins_witness :
    42 ∈ [wRec, wRecNull].map (fun p => p.id) ∧
    ∃ q, lastWithId [wRec, wRecNull] 42 = some q ∧
      lookupRow (upsert_posts "T" [wStored] [wRec, wRecNull]) 42 =
        some { id := 42, title := q.title, url := q.url, user := q.user,
               points := q.points,
               time_posted :=
                 coalesce
                   (lastNonNull
                     (([wRec, wRecNull].filter (fun p => p.id = 42)).map
                       (fun p => p.time_posted)))
                   ((lookupRow [wStored] 42).bind (fun r => r.time_posted)),
               scraped_at := "T" } :=
  ⟨by decide, upsert_last_write_wins "T" [wRec, wRecNull] [wStored] 42 (by decide)⟩

/-! ### Claim theorems: `main` and the connection -/

/-- C8 counterexample: a run whose parse stage raises is caught (exit code 1)
yet never executes `conn.close()`, so the claim that every run closes the
connection is false. -/
theorem conn_close_counterexample :
    (mainRun (some MainStage.parsePosts)).exitCode = 1 ∧
    (mainRun (some MainStage.parsePosts)).connClosed = false := by
  decide

/-- C8 amended: the connection is closed exactly on runs with no caught
failure; a run that ends in a caught failure returns exit code 1 without
reaching the `conn.close()` statement. -/
theorem conn_close_success_only :
    ∀ failAt : Option MainStage,
      (mainRun failAt).connClosed = failAt.isNone ∧
      (mainRun failAt).exitCode = (if failAt.isNone then 0 else 1) := by
  intro failAt
  rcases failAt with _ | s
  · exact ⟨rfl, rfl⟩
  · cases s <;> exact ⟨by decide, by decide⟩

end HS
